import Mathlib

/-!
Verification of the moviemail pipeline (src/main.rs) against its specification.

The single Rust source file implements an incremental discovery pipeline:
read config, read archive, fetch director credits, filter to directing
credits with a release date, dedupe by movie id, drop archived ids, fetch
details per new movie, an enrichment loop deciding archive membership and
notification validity, notification (dry-run print or email), and a final
archive write.  Remote calls and the filesystem are modelled at their
interface boundary: responses are supplied as functions in the run input,
and each fallible native call (expect / unwrap / panic) becomes an
`Except` error.  `u32` ids become `Nat` (no arithmetic is performed on
them, so no overflow modelling is required).
-/

set_option linter.unusedVariables false

/-- A film/credit record, field for field the struct Movie of src/main.rs
(id, title, overview, poster_path, release_date, job, director_name,
imdb_id). -/
structure Movie where
  id : Nat
  title : String
  overview : String
  poster_path : Option String
  release_date : String
  job : Option String
  director_name : Option String
  imdb_id : Option String
  deriving DecidableEq, Repr

/-- The struct MovieDetails of src/main.rs: the details lookup response
(id, optional imdb_id, optional runtime in minutes). -/
structure MovieDetails where
  id : Nat
  imdb_id : Option String
  runtime : Option Nat
  deriving DecidableEq, Repr

/-- The struct Config of src/main.rs.  The `directors` HashMap is
modelled as a list of (person id, display name) pairs in the (otherwise
unspecified) iteration order of the map; `to` and `from` are Lean
keywords so those fields are named to_addr and from_addr. -/
structure Config where
  archive_path : String
  dry_run : Bool
  api_key : String
  to_addr : String
  from_addr : String
  subject : String
  username : String
  password : String
  smtp : String
  directors : List (String × String)

/-! ### Association-list model of HashMap u32 V

The Rust code keeps movies in a HashMap keyed by movie id.  We model it
as an association list where insertion removes any previous binding of
the key and appends the new one: exactly the observable behaviour of
HashMap insert / collect (later entries win), with unique keys. -/

/-- HashMap insert: drop any old binding of the key, add the new one. -/
def insertA {α : Type} (a : List (Nat × α)) (k : Nat) (v : α) : List (Nat × α) :=
  a.filter (fun p => p.1 != k) ++ [(k, v)]

/-- HashMap get. -/
def lookupA {α : Type} (a : List (Nat × α)) (k : Nat) : Option α :=
  (a.find? (fun p => p.1 == k)).map (fun p => p.2)

/-- HashMap remove. -/
def removeA {α : Type} (a : List (Nat × α)) (k : Nat) : List (Nat × α) :=
  a.filter (fun p => p.1 != k)

/-- HashMap values. -/
def valuesA {α : Type} (a : List (Nat × α)) : List α :=
  a.map (fun p => p.2)

/-- Building a map from a stream of values, keyed by `key`, later
entries overwriting earlier ones: the semantics of
`.map(|m| (m.id, m)).collect::<HashMap<_, _>>()`. -/
def collectBy {α : Type} (key : α → Nat) (l : List α) : List (Nat × α) :=
  l.foldl (fun a v => insertA a (key v) v) []

/-! ### Interface-level model of the filesystem and the fatal errors -/

/-- Outcome of `read_to_string` on the archive path, with the serde
parse of a successfully read string abstracted to its result: the read
can fail because the file is missing, or for any other IO reason
(permissions, ...), or succeed with content that either parses to a
movie list or does not. -/
inductive ArchiveFile where
  | missing
  | ioError
  | content (parsed : Option (List Movie))
  deriving DecidableEq, Repr

/-- Each fatal exit of main (an expect / unwrap / panic in the source)
becomes one error value. -/
inductive RunError where
  | configError
  | archiveParse
  | fetchCredits
  | fetchDetails
  | detailsLookup
  | missingDirectorName
  | sendFailure
  | archiveWrite
  deriving DecidableEq, Repr

/-- The observable side effects of one run, in order: the issued remote
requests, the dry-run prints, the email dispatch, and the archive file
write. -/
inductive Effect where
  | fetchCredits (director_id : String)
  | fetchDetails (movie_id : Nat)
  | printMovie (movie_id : Nat)
  | sendEmail
  | writeArchive (movies : List Movie)
  deriving DecidableEq, Repr

/-- fn read_archive of src/main.rs: any failed read (missing file or
other IO error) yields the empty list; content that fails to parse is a
fatal error (expect); parsed content is returned. -/
def read_archive : ArchiveFile → Except RunError (List Movie)
  | ArchiveFile.missing => .ok []
  | ArchiveFile.ioError => .ok []
  | ArchiveFile.content none => .error RunError.archiveParse
  | ArchiveFile.content (some ms) => .ok ms

/-! ### The pipeline stages -/

/-- fn fetch_director_credits of src/main.rs: the remote credits
response (already unwrapped to the crew list) with every credit stamped
with the director display name. -/
def fetch_director_credits (creditsResp : String → Except Unit (List Movie))
    (director_id director_name : String) : Except Unit (List Movie) :=
  match creditsResp director_id with
  | .error e => .error e
  | .ok crew => .ok (crew.map (fun c => { c with director_name := some director_name }))

/-- join_all over the per-director credit fetches, flattened in roster
order.  Any single failing fetch is fatal (expect in the async fn),
matching the all-or-nothing baseline. -/
def fetchAllCredits (creditsResp : String → Except Unit (List Movie)) :
    List (String × String) → Except Unit (List Movie)
  | [] => .ok []
  | d :: rest =>
    match fetch_director_credits creditsResp d.1 d.2 with
    | .error e => .error e
    | .ok cs =>
      match fetchAllCredits creditsResp rest with
      | .error e => .error e
      | .ok others => .ok (cs ++ others)

/-- The two eligibility filters of main (lines 150-151): keep directing
credits, then keep non-empty release dates. -/
def eligibleCredits (crew : List Movie) : List Movie :=
  (crew.filter (fun m => m.job == some "Director")).filter (fun m => m.release_date != "")

/-- The candidate mapping of main (line 146): eligible credits collected
into a HashMap keyed by movie id. -/
def collectMovies (l : List Movie) : List (Nat × Movie) :=
  collectBy Movie.id l

/-- Reconciliation (lines 158-162): the map values whose id is not in
the archive snapshot's id set. -/
def newCandidates (archive_set : List Nat) (movies : List (Nat × Movie)) : List Movie :=
  (valuesA movies).filter (fun m => !(archive_set.contains m.id))

/-- join_all over the per-movie details fetches (lines 167-176); any
single failure is fatal. -/
def fetchAllDetails (detailsResp : Nat → Except Unit MovieDetails) :
    List Movie → Except Unit (List MovieDetails)
  | [] => .ok []
  | m :: rest =>
    match detailsResp m.id with
    | .error e => .error e
    | .ok d =>
      match fetchAllDetails detailsResp rest with
      | .error e => .error e
      | .ok ds => .ok (d :: ds)

/-- The details HashMap of main (line 172), keyed by the id field of
each response. -/
def collectDetails (l : List MovieDetails) : List (Nat × MovieDetails) :=
  collectBy MovieDetails.id l

/-- The enrichment loop of main (lines 179-203).  For each new movie,
look its details up (unwrap: a missing key is a fatal error); with no
imdb id, remove the movie from the full map, mark it invalid and
continue without touching the movie itself; otherwise attach the imdb
id to the movie (the copy in new_movies only), remove it from the full
map when the runtime (defaulted to 0) is 0, and mark it invalid when
the runtime is below 60.  Returns the updated new_movies list, the
updated full map and the invalid id set. -/
def enrichLoop (dmap : List (Nat × MovieDetails)) :
    List Movie → List (Nat × Movie) → List Nat →
    Except RunError (List Movie × List (Nat × Movie) × List Nat)
  | [], movies, invalid => .ok ([], movies, invalid)
  | movie :: rest, movies, invalid =>
    match lookupA dmap movie.id with
    | none => .error RunError.detailsLookup
    | some details =>
      match details.imdb_id with
      | none =>
        match enrichLoop dmap rest (removeA movies movie.id) (movie.id :: invalid) with
        | .error e => .error e
        | .ok (ms, mv, inv) => .ok (movie :: ms, mv, inv)
      | some imdb =>
        match enrichLoop dmap rest
            (if details.runtime.getD 0 = 0 then removeA movies movie.id else movies)
            (if details.runtime.getD 0 < 60 then movie.id :: invalid else invalid) with
        | .error e => .error e
        | .ok (ms, mv, inv) => .ok ({ movie with imdb_id := some imdb } :: ms, mv, inv)

/-- The dry-run branch of main (lines 215-217): one print per movie;
the director name is unwrapped, a missing one is a fatal panic. -/
def renderDryRun : List Movie → Except RunError (List Effect)
  | [] => .ok []
  | m :: rest =>
    match m.director_name with
    | none => .error RunError.missingDirectorName
    | some _ =>
      match renderDryRun rest with
      | .error e => .error e
      | .ok es => .ok (Effect.printMovie m.id :: es)

/-- The link of fn create_message_body: imdb deep link when the imdb id
is present, else the source-site fallback from the movie's own id. -/
def movieLink (m : Movie) : String :=
  match m.imdb_id with
  | some imdb => "https://www.imdb.com/title/" ++ imdb
  | none => "https://www.themoviedb.org/movie/" ++ toString m.id

/-- fn create_message_body of src/main.rs: the plain and html bodies,
one line per movie; the director name is unwrapped, a missing one is a
fatal panic. -/
def create_message_body : List Movie → Except RunError (String × String)
  | [] => .ok ("", "")
  | m :: rest =>
    match m.director_name with
    | none => .error RunError.missingDirectorName
    | some director =>
      match create_message_body rest with
      | .error e => .error e
      | .ok (p, h) =>
        .ok (movieLink m ++ " - " ++ m.title ++ " - " ++ director ++ "\n" ++ p,
          "<p><a href=\x22" ++ movieLink m ++ "\x22>" ++ m.title ++ " - " ++ director
            ++ "</a></p>" ++ h)

/-- One run's external inputs: the config read result, the archive file
state, the two remote response functions, and whether the email send
and the archive write succeed. -/
structure RunInput where
  config : Except Unit Config
  archiveFile : ArchiveFile
  creditsResp : String → Except Unit (List Movie)
  detailsResp : Nat → Except Unit MovieDetails
  sendOk : Bool
  writeOk : Bool

/-- fn write_archive of src/main.rs at the end of main: the write is
attempted (recorded in the trace) and its failure is fatal. -/
def commitArchive (inp : RunInput) (tr : List Effect) (archOut new3 : List Movie) :
    List Effect × Except RunError (List Movie × List Movie) :=
  (tr ++ [Effect.writeArchive archOut],
    if inp.writeOk then .ok (archOut, new3) else .error RunError.archiveWrite)

/-- The notification stage of main (lines 213-233) followed by the
archive commit (line 237): with no valid new movies the notification is
skipped; in dry-run mode the movies are printed; otherwise the email is
rendered and dispatched, a dispatch failure being fatal before any
write. -/
def notifyCommit (inp : RunInput) (config : Config) (tr : List Effect)
    (archOut new3 : List Movie) : List Effect × Except RunError (List Movie × List Movie) :=
  if 0 < new3.length then
    if config.dry_run then
      match renderDryRun new3 with
      | .error e => (tr, .error e)
      | .ok prints => commitArchive inp (tr ++ prints) archOut new3
    else
      match create_message_body new3 with
      | .error e => (tr, .error e)
      | .ok _ =>
        if inp.sendOk then commitArchive inp (tr ++ [Effect.sendEmail]) archOut new3
        else (tr ++ [Effect.sendEmail], .error RunError.sendFailure)
  else commitArchive inp tr archOut new3

/-- The pipeline of fn main after config and archive are read: discovery
(all credit fetches are issued; any failure is fatal), the candidate
map, reconciliation, the details fetches, the enrichment loop, the
invalid filter, then notification and commit. -/
def runPipeline (inp : RunInput) (config : Config) (archive : List Movie) :
    List Effect × Except RunError (List Movie × List Movie) :=
  let archive_set := archive.map Movie.id
  let trD := config.directors.map (fun d => Effect.fetchCredits d.1)
  match fetchAllCredits inp.creditsResp config.directors with
  | .error _ => (trD, .error RunError.fetchCredits)
  | .ok crew =>
    let movies := collectMovies (eligibleCredits crew)
    let new_movies := newCandidates archive_set movies
    let trE := trD ++ new_movies.map (fun m => Effect.fetchDetails m.id)
    match fetchAllDetails inp.detailsResp new_movies with
    | .error _ => (trE, .error RunError.fetchDetails)
    | .ok ds =>
      match enrichLoop (collectDetails ds) new_movies movies [] with
      | .error e => (trE, .error e)
      | .ok (new2, movies2, invalid) =>
        notifyCommit inp config trE (valuesA movies2)
          (new2.filter (fun m => !(invalid.contains m.id)))

/-- fn main of src/main.rs: read the config (a failure is fatal with an
empty trace), read the archive (an unparseable file is fatal before any
pipeline stage), then run the pipeline.  The result carries the run's
effect trace and, on success, the committed archive contents and the
notified movie list. -/
def run (inp : RunInput) : List Effect × Except RunError (List Movie × List Movie) :=
  match inp.config with
  | .error _ => ([], .error RunError.configError)
  | .ok config =>
    match read_archive inp.archiveFile with
    | .error e => ([], .error e)
    | .ok archive => runPipeline inp config archive

/-! ### Derived notions used in the statements -/

/-- The runtime as the enrichment loop sees it: absent defaults to 0. -/
def detailsRuntime (d : MovieDetails) : Nat := d.runtime.getD 0

/-- The condition under which the enrichment loop removes a candidate
from the full map (and hence from the committed archive). -/
def removeCond (d : MovieDetails) : Prop :=
  d.imdb_id = none ∨ detailsRuntime d = 0

/-- The condition under which the enrichment loop marks a candidate
invalid for notification. -/
def invalidCond (d : MovieDetails) : Prop :=
  d.imdb_id = none ∨ detailsRuntime d < 60

/-- How the enrichment loop rewrites a candidate in new_movies: the imdb
id of the details is attached when present, the movie is untouched
otherwise. -/
def attachD (d : MovieDetails) (m : Movie) : Movie :=
  match d.imdb_id with
  | some x => { m with imdb_id := some x }
  | none => m

/-- The details the enrichment loop uses for a movie: the lookup in the
details map, with an arbitrary default (only consulted under a
hypothesis that the lookup succeeds). -/
def detailsOf (dmap : List (Nat × MovieDetails)) (m : Movie) : MovieDetails :=
  (lookupA dmap m.id).getD { id := 0, imdb_id := none, runtime := none }

/-- An effect is the archive write. -/
def isWriteEffect : Effect → Bool
  | Effect.writeArchive _ => true
  | _ => false

/-! ### Association-map lemmas -/

/-- Entries of the map agree with the keying function. -/
def wfA {α : Type} (a : List (Nat × α)) (key : α → Nat) : Prop :=
  ∀ p ∈ a, p.1 = key p.2

/-- Every value of the map is found again under its own key. -/
def selfA {α : Type} (a : List (Nat × α)) (key : α → Nat) : Prop :=
  ∀ v ∈ valuesA a, lookupA a (key v) = some v

/-- Each key occurs at most once. -/
def ukA {α : Type} (a : List (Nat × α)) : Prop :=
  ∀ k, a.countP (fun p => p.1 == k) ≤ 1

lemma lookupA_nil {α : Type} (k : Nat) : lookupA ([] : List (Nat × α)) k = none := rfl

lemma find?_filter_ne_key {α : Type} (a : List (Nat × α)) (k : Nat) :
    (a.filter (fun p => p.1 != k)).find? (fun p => p.1 == k) = none := by
  rw [List.find?_eq_none]
  intro x hx
  rcases List.mem_filter.mp hx with ⟨hxa, hne⟩
  simp only [bne_iff_ne, ne_eq] at hne
  simp [hne]

lemma find?_filter_ne {α : Type} (a : List (Nat × α)) (k k' : Nat) (h : k' ≠ k) :
    (a.filter (fun p => p.1 != k)).find? (fun p => p.1 == k') =
      a.find? (fun p => p.1 == k') := by
  induction a with
  | nil => rfl
  | cons p rest ih =>
    by_cases hp : p.1 = k
    · have hpred : ¬((p.1 == k') = true) := by
        simp only [beq_iff_eq, hp]
        exact fun hh => h hh.symm
      rw [List.filter_cons]
      simp only [hp, ite_self, bne_self_eq_false, Bool.false_eq_true, if_false]
      rw [ih]
      exact (List.find?_cons_of_neg rest hpred).symm
    · by_cases hq : p.1 = k'
      · simp [List.filter_cons, hp, List.find?_cons_of_pos, hq, h]
      · simp [List.filter_cons, hp, hq, ih]

lemma lookupA_insertA {α : Type} (a : List (Nat × α)) (k : Nat) (v : α) (k' : Nat) :
    lookupA (insertA a k v) k' = if k' = k then some v else lookupA a k' := by
  unfold lookupA insertA
  rw [List.find?_append]
  by_cases h : k' = k
  · subst h
    rw [find?_filter_ne_key, Option.none_or, if_pos rfl]
    simp
  · rw [if_neg h, find?_filter_ne a k k' h]
    have h1 : (((k, v) :: []).find? (fun p => p.1 == k')) = none := by
      simp [Ne.symm h]
    rw [h1, Option.or_none]

lemma lookupA_removeA {α : Type} (a : List (Nat × α)) (k k' : Nat) :
    lookupA (removeA a k) k' = if k' = k then none else lookupA a k' := by
  unfold lookupA removeA
  by_cases h : k' = k
  · subst h
    rw [if_pos rfl, find?_filter_ne_key]
    rfl
  · rw [if_neg h, find?_filter_ne a k k' h]

lemma lookupA_isSome_iff {α : Type} (a : List (Nat × α)) (k : Nat) :
    (lookupA a k).isSome ↔ ∃ p ∈ a, p.1 = k := by
  unfold lookupA
  rw [Option.isSome_map', List.find?_isSome]
  constructor
  · rintro ⟨p, hp, hk⟩
    exact ⟨p, hp, by simpa using hk⟩
  · rintro ⟨p, hp, hk⟩
    exact ⟨p, hp, by simp [hk]⟩

lemma lookupA_eq_some_mem {α : Type} {a : List (Nat × α)} {k : Nat} {v : α}
    (h : lookupA a k = some v) : (k, v) ∈ a := by
  unfold lookupA at h
  cases hf : a.find? (fun p => p.1 == k) with
  | none => rw [hf] at h; cases h
  | some p =>
    rw [hf] at h
    have hp := List.find?_some hf
    have hmem := List.mem_of_find?_eq_some hf
    have hk : p.1 = k := by simpa using hp
    have hv : v = p.2 := by simpa using h.symm
    cases p with
    | mk p1 p2 =>
      simp only at hk hv
      rw [hv, ← hk]
      exact hmem

lemma lookupA_eq_none_forall {α : Type} {a : List (Nat × α)} {k : Nat}
    (h : lookupA a k = none) : ∀ p ∈ a, p.1 ≠ k := by
  intro p hp hk
  have : (lookupA a k).isSome := (lookupA_isSome_iff a k).mpr ⟨p, hp, hk⟩
  rw [h] at this
  cases this

lemma lookupA_foldl_insert {α : Type} (key : α → Nat) (l : List α) (a0 : List (Nat × α)) (k : Nat) :
    lookupA (l.foldl (fun a v => insertA a (key v) v) a0) k =
      (l.reverse.find? (fun v => key v == k)).or (lookupA a0 k) := by
  induction l generalizing a0 with
  | nil => simp
  | cons v l ih =>
    rw [List.foldl_cons, ih, List.reverse_cons, List.find?_append]
    rw [lookupA_insertA]
    have h1 : ([v].find? (fun w => key w == k)) = if key v == k then some v else none := by
      simp
    rw [h1, Option.or_assoc]
    congr 1
    by_cases h : key v = k
    · simp [h]
    · have h2 : ¬(k = key v) := fun hh => h hh.symm
      simp [h, h2]

lemma lookupA_collectBy {α : Type} (key : α → Nat) (l : List α) (k : Nat) :
    lookupA (collectBy key l) k = l.reverse.find? (fun v => key v == k) := by
  unfold collectBy
  rw [lookupA_foldl_insert, lookupA_nil, Option.or_none]

lemma mem_valuesA {α : Type} {a : List (Nat × α)} {v : α} :
    v ∈ valuesA a ↔ ∃ k, (k, v) ∈ a := by
  unfold valuesA
  constructor
  · intro h
    rcases List.mem_map.mp h with ⟨p, hp, hv⟩
    exact ⟨p.1, by rwa [show (p.1, v) = p from by rw [← hv]]⟩
  · rintro ⟨k, hk⟩
    exact List.mem_map.mpr ⟨(k, v), hk, rfl⟩

lemma valuesA_foldl_insert_subset {α : Type} (key : α → Nat) (l : List α) :
    ∀ (a0 : List (Nat × α)) (v : α),
      v ∈ valuesA (l.foldl (fun a w => insertA a (key w) w) a0) →
      v ∈ valuesA a0 ∨ v ∈ l := by
  induction l with
  | nil => intro a0 v h; exact Or.inl h
  | cons w l ih =>
    intro a0 v h
    rw [List.foldl_cons] at h
    rcases ih _ v h with h1 | h1
    · unfold insertA valuesA at h1
      rw [List.map_append] at h1
      rcases List.mem_append.mp h1 with h2 | h2
      · left
        unfold valuesA
        rcases List.mem_map.mp h2 with ⟨p, hp, hv⟩
        exact List.mem_map.mpr ⟨p, List.mem_of_mem_filter hp, hv⟩
      · right
        have : v = w := by simpa using h2
        simp [this]
    · right; simp [h1]

lemma mem_collectBy_mem {α : Type} (key : α → Nat) (l : List α) :
    ∀ v ∈ valuesA (collectBy key l), v ∈ l := by
  intro v h
  rcases valuesA_foldl_insert_subset key l [] v h with h1 | h1
  · cases h1
  · exact h1

lemma wfA_insertA {α : Type} {a : List (Nat × α)} {key : α → Nat}
    (h : wfA a key) (v : α) : wfA (insertA a (key v) v) key := by
  intro p hp
  unfold insertA at hp
  rcases List.mem_append.mp hp with h1 | h1
  · exact h p (List.mem_of_mem_filter h1)
  · have : p = (key v, v) := by simpa using h1
    rw [this]

lemma selfA_insertA {α : Type} {a : List (Nat × α)} {key : α → Nat}
    (hwf : wfA a key) (hself : selfA a key) (w : α) :
    selfA (insertA a (key w) w) key := by
  intro v hv
  rcases mem_valuesA.mp hv with ⟨k, hk⟩
  unfold insertA at hk
  rcases List.mem_append.mp hk with hk1 | hk1
  · rcases List.mem_filter.mp hk1 with ⟨hka, hne⟩
    have hkv : k = key v := hwf _ hka
    have hne' : k ≠ key w := by simpa [bne_iff_ne] using hne
    rw [lookupA_insertA, if_neg (fun hh => hne' (hkv ▸ hh))]
    exact hself v (mem_valuesA.mpr ⟨k, hka⟩)
  · have : k = key w ∧ v = w := by simpa using hk1
    rcases this with ⟨rfl, rfl⟩
    rw [lookupA_insertA, if_pos rfl]

lemma wf_self_foldl_insert {α : Type} (key : α → Nat) (l : List α) :
    ∀ a0 : List (Nat × α), wfA a0 key → selfA a0 key →
      wfA (l.foldl (fun a v => insertA a (key v) v) a0) key ∧
      selfA (l.foldl (fun a v => insertA a (key v) v) a0) key := by
  induction l with
  | nil => intro a0 h1 h2; exact ⟨h1, h2⟩
  | cons v l ih =>
    intro a0 h1 h2
    exact ih _ (wfA_insertA h1 v) (selfA_insertA h1 h2 v)

lemma wfA_collectBy {α : Type} (key : α → Nat) (l : List α) :
    wfA (collectBy key l) key :=
  (wf_self_foldl_insert key l [] (fun p hp => absurd hp (List.not_mem_nil p))
    (fun v hv => absurd hv (List.not_mem_nil v))).1

lemma selfA_collectBy {α : Type} (key : α → Nat) (l : List α) :
    selfA (collectBy key l) key :=
  (wf_self_foldl_insert key l [] (fun p hp => absurd hp (List.not_mem_nil p))
    (fun v hv => absurd hv (List.not_mem_nil v))).2

lemma ukA_insertA {α : Type} {a : List (Nat × α)} (h : ukA a) (k : Nat) (v : α) :
    ukA (insertA a k v) := by
  intro k'
  unfold insertA
  rw [List.countP_append]
  by_cases hk : k' = k
  · subst hk
    have hz : (a.filter (fun p => p.1 != k')).countP (fun p => p.1 == k') = 0 := by
      rw [List.countP_eq_zero]
      intro p hp
      rcases List.mem_filter.mp hp with ⟨_, hne⟩
      simp only [bne_iff_ne, ne_eq] at hne
      simp [hne]
    rw [hz]
    simp
  · have hone : ((k, v) :: []).countP (fun p => p.1 == k') = 0 := by
      simp [Ne.symm hk]
    rw [hone, Nat.add_zero]
    calc (a.filter (fun p => p.1 != k)).countP (fun p => p.1 == k')
        ≤ a.countP (fun p => p.1 == k') := by
          rw [List.countP_filter]
          exact List.countP_mono_left (fun p _ hp => by simp at hp ⊢; exact hp.1)
      _ ≤ 1 := h k'

lemma ukA_collectBy {α : Type} (key : α → Nat) (l : List α) : ukA (collectBy key l) := by
  unfold collectBy
  have : ∀ a0 : List (Nat × α), ukA a0 → ukA (l.foldl (fun a v => insertA a (key v) v) a0) := by
    induction l with
    | nil => intro a0 h; exact h
    | cons v l ih => intro a0 h; exact ih _ (ukA_insertA h (key v) v)
  exact this [] (fun k => by rw [List.countP_nil]; exact Nat.zero_le 1)

/-! ### Discovery-stage lemmas -/

lemma fetch_director_credits_ok {creditsResp : String → Except Unit (List Movie)}
    {did dname : String} {cs : List Movie}
    (h : fetch_director_credits creditsResp did dname = .ok cs) :
    ∃ crew, creditsResp did = .ok crew ∧
      cs = crew.map (fun c => { c with director_name := some dname }) := by
  unfold fetch_director_credits at h
  cases hr : creditsResp did with
  | error e => rw [hr] at h; cases h
  | ok crew =>
    rw [hr] at h
    cases h
    exact ⟨crew, rfl, rfl⟩

lemma fetchAllCredits_ok_cons {creditsResp : String → Except Unit (List Movie)}
    {d : String × String} {rest : List (String × String)} {crew : List Movie}
    (h : fetchAllCredits creditsResp (d :: rest) = .ok crew) :
    ∃ cs others, fetch_director_credits creditsResp d.1 d.2 = .ok cs ∧
      fetchAllCredits creditsResp rest = .ok others ∧ crew = cs ++ others := by
  unfold fetchAllCredits at h
  cases h1 : fetch_director_credits creditsResp d.1 d.2 with
  | error e => rw [h1] at h; cases h
  | ok cs =>
    rw [h1] at h
    cases h2 : fetchAllCredits creditsResp rest with
    | error e => rw [h2] at h; cases h
    | ok others =>
      rw [h2] at h
      cases h
      exact ⟨cs, others, rfl, rfl, rfl⟩

lemma fetchAllCredits_ok_append {creditsResp : String → Except Unit (List Movie)}
    {l1 l2 : List (String × String)} {crew : List Movie}
    (h : fetchAllCredits creditsResp (l1 ++ l2) = .ok crew) :
    ∃ c1 c2, fetchAllCredits creditsResp l1 = .ok c1 ∧
      fetchAllCredits creditsResp l2 = .ok c2 ∧ crew = c1 ++ c2 := by
  induction l1 generalizing crew with
  | nil => exact ⟨[], crew, rfl, h, rfl⟩
  | cons d rest ih =>
    rw [List.cons_append] at h
    rcases fetchAllCredits_ok_cons h with ⟨cs, others, h1, h2, rfl⟩
    rcases ih h2 with ⟨c1, c2, h3, h4, rfl⟩
    refine ⟨cs ++ c1, c2, ?_, h4, by rw [List.append_assoc]⟩
    unfold fetchAllCredits
    rw [h1, h3]

lemma fetchAllCredits_stamped {creditsResp : String → Except Unit (List Movie)}
    {directors : List (String × String)} {crew : List Movie}
    (h : fetchAllCredits creditsResp directors = .ok crew) :
    ∀ m ∈ crew, m.director_name.isSome := by
  induction directors generalizing crew with
  | nil =>
    unfold fetchAllCredits at h
    cases h
    intro m hm
    cases hm
  | cons d rest ih =>
    rcases fetchAllCredits_ok_cons h with ⟨cs, others, h1, h2, rfl⟩
    intro m hm
    rcases List.mem_append.mp hm with hm1 | hm1
    · rcases fetch_director_credits_ok h1 with ⟨cr, _, rfl⟩
      rcases List.mem_map.mp hm1 with ⟨c, _, rfl⟩
      rfl
    · exact ih h2 m hm1

lemma mem_eligibleCredits {crew : List Movie} {m : Movie} :
    m ∈ eligibleCredits crew ↔
      m ∈ crew ∧ m.job = some "Director" ∧ m.release_date ≠ "" := by
  unfold eligibleCredits
  simp only [List.mem_filter, beq_iff_eq, bne_iff_ne, ne_eq, and_assoc]

lemma mem_newCandidates {ids : List Nat} {movies : List (Nat × Movie)} {m : Movie} :
    m ∈ newCandidates ids movies ↔ m ∈ valuesA movies ∧ ¬(m.id ∈ ids) := by
  unfold newCandidates
  rw [List.mem_filter]
  simp

/-! ### Details-fetch lemmas -/

lemma fetchAllDetails_ok_cons {detailsResp : Nat → Except Unit MovieDetails}
    {m : Movie} {rest : List Movie} {ds : List MovieDetails}
    (h : fetchAllDetails detailsResp (m :: rest) = .ok ds) :
    ∃ d ds', detailsResp m.id = .ok d ∧
      fetchAllDetails detailsResp rest = .ok ds' ∧ ds = d :: ds' := by
  unfold fetchAllDetails at h
  cases h1 : detailsResp m.id with
  | error e => rw [h1] at h; cases h
  | ok d =>
    rw [h1] at h
    cases h2 : fetchAllDetails detailsResp rest with
    | error e => rw [h2] at h; cases h
    | ok ds' =>
      rw [h2] at h
      cases h
      exact ⟨d, ds', rfl, rfl, rfl⟩

lemma fetchAllDetails_resp_ok {detailsResp : Nat → Except Unit MovieDetails}
    {nms : List Movie} {ds : List MovieDetails}
    (h : fetchAllDetails detailsResp nms = .ok ds) :
    ∀ m ∈ nms, ∃ d, detailsResp m.id = .ok d := by
  induction nms generalizing ds with
  | nil => intro m hm; cases hm
  | cons m rest ih =>
    rcases fetchAllDetails_ok_cons h with ⟨d, ds', h1, h2, rfl⟩
    intro m' hm'
    rcases List.mem_cons.mp hm' with rfl | hm'
    · exact ⟨d, h1⟩
    · exact ih h2 m' hm'

lemma fetchAllDetails_elem_resp {detailsResp : Nat → Except Unit MovieDetails}
    {nms : List Movie} {ds : List MovieDetails}
    (h : fetchAllDetails detailsResp nms = .ok ds) :
    ∀ d ∈ ds, ∃ m ∈ nms, detailsResp m.id = .ok d := by
  induction nms generalizing ds with
  | nil =>
    unfold fetchAllDetails at h
    cases h
    intro d hd
    cases hd
  | cons m rest ih =>
    rcases fetchAllDetails_ok_cons h with ⟨d, ds', h1, h2, rfl⟩
    intro d' hd'
    rcases List.mem_cons.mp hd' with rfl | hd'
    · exact ⟨m, List.mem_cons_self m rest, h1⟩
    · rcases ih h2 d' hd' with ⟨m', hm', h3⟩
      exact ⟨m', List.mem_cons_of_mem m hm', h3⟩

lemma fetchAllDetails_mem_ds {detailsResp : Nat → Except Unit MovieDetails}
    {nms : List Movie} {ds : List MovieDetails}
    (h : fetchAllDetails detailsResp nms = .ok ds) :
    ∀ m ∈ nms, ∀ d, detailsResp m.id = .ok d → d ∈ ds := by
  induction nms generalizing ds with
  | nil => intro m hm; cases hm
  | cons m rest ih =>
    rcases fetchAllDetails_ok_cons h with ⟨d, ds', h1, h2, rfl⟩
    intro m' hm' d' hd'
    rcases List.mem_cons.mp hm' with rfl | hm'
    · rw [h1] at hd'
      cases hd'
      exact List.mem_cons_self d ds'
    · exact List.mem_cons_of_mem d (ih h2 m' hm' d' hd')

lemma lookup_collectDetails {detailsResp : Nat → Except Unit MovieDetails}
    {nms : List Movie} {ds : List MovieDetails}
    (hid : ∀ i x, detailsResp i = .ok x → x.id = i)
    (h : fetchAllDetails detailsResp nms = .ok ds)
    {k : Nat} {d : MovieDetails} (hk : detailsResp k = .ok d)
    (hmem : ∃ m ∈ nms, m.id = k) :
    lookupA (collectDetails ds) k = some d := by
  unfold collectDetails
  rw [lookupA_collectBy]
  cases hf : ds.reverse.find? (fun x => x.id == k) with
  | none =>
    rw [List.find?_eq_none] at hf
    rcases hmem with ⟨m, hm, hmk⟩
    have hds : d ∈ ds := fetchAllDetails_mem_ds h m hm d (by rwa [hmk])
    have : d.id = k := hid k d hk
    exact absurd (by simp [this]) (hf d (List.mem_reverse.mpr hds))
  | some x =>
    have hx1 := List.mem_of_find?_eq_some hf
    have hx2 := List.find?_some hf
    have hxds : x ∈ ds := List.mem_reverse.mp hx1
    rcases fetchAllDetails_elem_resp h x hxds with ⟨m', hm', hresp⟩
    have hxid : x.id = k := by simpa using hx2
    have hmid : m'.id = k := by rw [← hid m'.id x hresp, hxid]
    rw [hmid] at hresp
    rw [hk] at hresp
    cases hresp
    rfl

lemma detailsOf_eq {dmap : List (Nat × MovieDetails)} {m : Movie} {d : MovieDetails}
    (h : lookupA dmap m.id = some d) : detailsOf dmap m = d := by
  unfold detailsOf
  rw [h]
  rfl

/-! ### Enrichment-loop characterization -/

lemma invalidCond_none {d : MovieDetails} (h : d.imdb_id = none) : invalidCond d :=
  Or.inl h

lemma removeCond_none {d : MovieDetails} (h : d.imdb_id = none) : removeCond d :=
  Or.inl h

lemma invalidCond_some_iff {d : MovieDetails} {x : String} (h : d.imdb_id = some x) :
    invalidCond d ↔ detailsRuntime d < 60 := by
  unfold invalidCond
  rw [h]
  simp

lemma removeCond_some_iff {d : MovieDetails} {x : String} (h : d.imdb_id = some x) :
    removeCond d ↔ detailsRuntime d = 0 := by
  unfold removeCond
  rw [h]
  simp

lemma enrichLoop_spec (dmap : List (Nat × MovieDetails)) :
    ∀ (nms : List Movie) (movies0 : List (Nat × Movie)) (inv0 : List Nat)
      (new2 : List Movie) (movies' : List (Nat × Movie)) (inv' : List Nat),
      enrichLoop dmap nms movies0 inv0 = .ok (new2, movies', inv') →
      new2 = nms.map (fun m => attachD (detailsOf dmap m) m) ∧
      (∀ m ∈ nms, lookupA dmap m.id = some (detailsOf dmap m)) ∧
      (∀ p ∈ movies', p ∈ movies0) ∧
      (∀ k, (k ∈ inv' ↔ k ∈ inv0 ∨ ∃ m ∈ nms, m.id = k ∧ invalidCond (detailsOf dmap m))) ∧
      (∀ k, ((∃ m ∈ nms, m.id = k ∧ removeCond (detailsOf dmap m)) → lookupA movies' k = none) ∧
        ((¬∃ m ∈ nms, m.id = k ∧ removeCond (detailsOf dmap m)) →
          lookupA movies' k = lookupA movies0 k)) := by
  intro nms
  induction nms with
  | nil =>
    intro movies0 inv0 new2 movies' inv' h
    unfold enrichLoop at h
    cases h
    refine ⟨rfl, ?_, ?_, ?_, ?_⟩
    · intro m hm; cases hm
    · intro p hp; exact hp
    · intro k; simp
    · intro k
      constructor
      · rintro ⟨m, hm, -⟩; cases hm
      · intro _; rfl
  | cons movie rest ih =>
    intro movies0 inv0 new2 movies' inv' h
    unfold enrichLoop at h
    split at h
    next hl => cases h
    next details hl =>
      have hdet : detailsOf dmap movie = details := detailsOf_eq hl
      split at h
      next himdb =>
        split at h
        next e hrec => cases h
        next ms mv inv hrec =>
          cases h
          obtain ⟨ih1, ih2, ih3, ih4, ih5⟩ := ih _ _ _ _ _ hrec
          have hatt : attachD (detailsOf dmap movie) movie = movie := by
            rw [hdet]
            unfold attachD
            rw [himdb]
          refine ⟨?_, ?_, ?_, ?_, ?_⟩
          · rw [List.map_cons, hatt, ih1]
          · intro m hm
            rcases List.mem_cons.mp hm with rfl | hm
            · rw [hl, hdet]
            · exact ih2 m hm
          · intro p hp
            exact List.mem_of_mem_filter (ih3 p hp)
          · intro k
            rw [ih4 k]
            constructor
            · rintro (h1 | h1)
              · rcases List.mem_cons.mp h1 with rfl | h1
                · exact Or.inr ⟨movie, List.mem_cons_self _ _, rfl,
                    invalidCond_none (hdet ▸ himdb)⟩
                · exact Or.inl h1
              · rcases h1 with ⟨m, hm, hk, hc⟩
                exact Or.inr ⟨m, List.mem_cons_of_mem _ hm, hk, hc⟩
            · rintro (h1 | ⟨m, hm, hk, hc⟩)
              · exact Or.inl (List.mem_cons_of_mem _ h1)
              · rcases List.mem_cons.mp hm with rfl | hm
                · exact Or.inl (hk ▸ List.mem_cons_self _ _)
                · exact Or.inr ⟨m, hm, hk, hc⟩
          · intro k
            constructor
            · rintro ⟨m, hm, hk, hc⟩
              rcases List.mem_cons.mp hm with rfl | hm
              · by_cases hrest : ∃ m' ∈ rest, m'.id = k ∧ removeCond (detailsOf dmap m')
                · exact (ih5 k).1 hrest
                · rw [(ih5 k).2 hrest, lookupA_removeA, if_pos hk.symm]
              · exact (ih5 k).1 ⟨m, hm, hk, hc⟩
            · intro hno
              have hrest : ¬∃ m' ∈ rest, m'.id = k ∧ removeCond (detailsOf dmap m') := by
                rintro ⟨m', hm', hk', hc'⟩
                exact hno ⟨m', List.mem_cons_of_mem _ hm', hk', hc'⟩
              have hne : movie.id ≠ k := by
                intro hk
                exact hno ⟨movie, List.mem_cons_self _ _, hk,
                  removeCond_none (hdet ▸ himdb)⟩
              rw [(ih5 k).2 hrest, lookupA_removeA, if_neg (fun hh => hne hh.symm)]
      next imdb himdb =>
        split at h
        next e hrec => cases h
        next ms mv inv hrec =>
          cases h
          obtain ⟨ih1, ih2, ih3, ih4, ih5⟩ := ih _ _ _ _ _ hrec
          have hrt : detailsRuntime details = details.runtime.getD 0 := rfl
          have hatt : attachD (detailsOf dmap movie) movie = { movie with imdb_id := some imdb } := by
            rw [hdet]
            unfold attachD
            rw [himdb]
          have hinv : invalidCond (detailsOf dmap movie) ↔ detailsRuntime details < 60 := by
            rw [hdet]; exact invalidCond_some_iff himdb
          have hrem : removeCond (detailsOf dmap movie) ↔ detailsRuntime details = 0 := by
            rw [hdet]; exact removeCond_some_iff himdb
          refine ⟨?_, ?_, ?_, ?_, ?_⟩
          · rw [List.map_cons, hatt, ih1]
          · intro m hm
            rcases List.mem_cons.mp hm with rfl | hm
            · rw [hl, hdet]
            · exact ih2 m hm
          · intro p hp
            have := ih3 p hp
            by_cases hr0 : details.runtime.getD 0 = 0
            · rw [if_pos hr0] at this
              exact List.mem_of_mem_filter this
            · rwa [if_neg hr0] at this
          · intro k
            rw [ih4 k]
            by_cases hr60 : details.runtime.getD 0 < 60
            · rw [if_pos hr60]
              constructor
              · rintro (h1 | h1)
                · rcases List.mem_cons.mp h1 with rfl | h1
                  · exact Or.inr ⟨movie, List.mem_cons_self _ _, rfl,
                      hinv.mpr (hrt ▸ hr60)⟩
                  · exact Or.inl h1
                · rcases h1 with ⟨m, hm, hk, hc⟩
                  exact Or.inr ⟨m, List.mem_cons_of_mem _ hm, hk, hc⟩
              · rintro (h1 | ⟨m, hm, hk, hc⟩)
                · exact Or.inl (List.mem_cons_of_mem _ h1)
                · rcases List.mem_cons.mp hm with rfl | hm
                  · exact Or.inl (hk ▸ List.mem_cons_self _ _)
                  · exact Or.inr ⟨m, hm, hk, hc⟩
            · rw [if_neg hr60]
              constructor
              · rintro (h1 | ⟨m, hm, hk, hc⟩)
                · exact Or.inl h1
                · exact Or.inr ⟨m, List.mem_cons_of_mem _ hm, hk, hc⟩
              · rintro (h1 | ⟨m, hm, hk, hc⟩)
                · exact Or.inl h1
                · rcases List.mem_cons.mp hm with rfl | hm
                  · exact absurd (hrt ▸ hinv.mp hc) hr60
                  · exact Or.inr ⟨m, hm, hk, hc⟩
          · intro k
            constructor
            · rintro ⟨m, hm, hk, hc⟩
              rcases List.mem_cons.mp hm with rfl | hm
              · have hr0 : details.runtime.getD 0 = 0 := hrt ▸ hrem.mp hc
                by_cases hrest : ∃ m' ∈ rest, m'.id = k ∧ removeCond (detailsOf dmap m')
                · exact (ih5 k).1 hrest
                · rw [(ih5 k).2 hrest, if_pos hr0, lookupA_removeA, if_pos hk.symm]
              · exact (ih5 k).1 ⟨m, hm, hk, hc⟩
            · intro hno
              have hrest : ¬∃ m' ∈ rest, m'.id = k ∧ removeCond (detailsOf dmap m') := by
                rintro ⟨m', hm', hk', hc'⟩
                exact hno ⟨m', List.mem_cons_of_mem _ hm', hk', hc'⟩
              rw [(ih5 k).2 hrest]
              by_cases hr0 : details.runtime.getD 0 = 0
              · have hne : movie.id ≠ k := by
                  intro hk
                  exact hno ⟨movie, List.mem_cons_self _ _, hk, hrem.mpr (hrt ▸ hr0)⟩
                rw [if_pos hr0, lookupA_removeA, if_neg (fun hh => hne hh.symm)]
              · rw [if_neg hr0]

/-! ### Run-level lemmas -/

lemma commitArchive_ok {inp : RunInput} {tr : List Effect} {archOut new3 c n : List Movie}
    (h : (commitArchive inp tr archOut new3).2 = .ok (c, n)) : c = archOut ∧ n = new3 := by
  unfold commitArchive at h
  simp only at h
  split at h
  · cases h
    exact ⟨rfl, rfl⟩
  · cases h

lemma notifyCommit_ok {inp : RunInput} {config : Config} {tr : List Effect}
    {archOut new3 c n : List Movie}
    (h : (notifyCommit inp config tr archOut new3).2 = .ok (c, n)) :
    c = archOut ∧ n = new3 := by
  unfold notifyCommit at h
  split at h
  · split at h
    · split at h
      · simp only at h
        cases h
      · exact commitArchive_ok h
    · split at h
      · simp only at h
        cases h
      · split at h
        · exact commitArchive_ok h
        · simp only at h
          cases h
  · exact commitArchive_ok h

lemma run_ok_inv {inp : RunInput} {tr : List Effect} {committed notified : List Movie}
    (hrun : run inp = (tr, .ok (committed, notified))) :
    ∃ config archive crew ds new2 movies2 invalid,
      inp.config = .ok config ∧
      read_archive inp.archiveFile = .ok archive ∧
      fetchAllCredits inp.creditsResp config.directors = .ok crew ∧
      fetchAllDetails inp.detailsResp
        (newCandidates (archive.map Movie.id) (collectMovies (eligibleCredits crew))) = .ok ds ∧
      enrichLoop (collectDetails ds)
        (newCandidates (archive.map Movie.id) (collectMovies (eligibleCredits crew)))
        (collectMovies (eligibleCredits crew)) [] = .ok (new2, movies2, invalid) ∧
      committed = valuesA movies2 ∧
      notified = new2.filter (fun m => !(invalid.contains m.id)) := by
  unfold run at hrun
  split at hrun
  next herr => cases hrun
  next config hcfg =>
    split at hrun
    next e harc => cases hrun
    next archive harc =>
      simp only [runPipeline] at hrun
      split at hrun
      next herr => cases hrun
      next crew hcrew =>
        split at hrun
        next herr => cases hrun
        next ds hds =>
          split at hrun
          next e herr => cases hrun
          next new2 movies2 invalid henr =>
            have h2 : (notifyCommit inp config
                (config.directors.map (fun d => Effect.fetchCredits d.1) ++
                  (newCandidates (archive.map Movie.id)
                    (collectMovies (eligibleCredits crew))).map
                      (fun m => Effect.fetchDetails m.id))
                (valuesA movies2)
                (new2.filter (fun m => !(invalid.contains m.id)))).2 =
                .ok (committed, notified) := by
              rw [hrun]
            rcases notifyCommit_ok h2 with ⟨h5, h6⟩
            exact ⟨config, archive, crew, ds, new2, movies2, invalid,
              hcfg, harc, hcrew, hds, henr, h5, h6⟩

lemma renderDryRun_effects {l : List Movie} {es : List Effect}
    (h : renderDryRun l = .ok es) : ∀ e ∈ es, ∃ i, e = Effect.printMovie i := by
  induction l generalizing es with
  | nil =>
    unfold renderDryRun at h
    cases h
    intro e he
    cases he
  | cons m rest ih =>
    unfold renderDryRun at h
    split at h
    · cases h
    · split at h
      · cases h
      next es' hes' =>
        cases h
        intro e he
        rcases List.mem_cons.mp he with rfl | he
        · exact ⟨m.id, rfl⟩
        · exact ih hes' e he

lemma renderDryRun_total {l : List Movie} (h : ∀ m ∈ l, m.director_name.isSome) :
    ∃ es, renderDryRun l = .ok es := by
  induction l with
  | nil => exact ⟨[], rfl⟩
  | cons m rest ih =>
    have hm := h m (List.mem_cons_self m rest)
    rcases ih (fun m' hm' => h m' (List.mem_cons_of_mem m hm')) with ⟨es, hes⟩
    cases hd : m.director_name with
    | none => rw [hd] at hm; cases hm
    | some name =>
      refine ⟨Effect.printMovie m.id :: es, ?_⟩
      unfold renderDryRun
      rw [hd, hes]

lemma create_message_body_total {l : List Movie} (h : ∀ m ∈ l, m.director_name.isSome) :
    ∃ b, create_message_body l = .ok b := by
  induction l with
  | nil => exact ⟨("", ""), rfl⟩
  | cons m rest ih =>
    have hm := h m (List.mem_cons_self m rest)
    rcases ih (fun m' hm' => h m' (List.mem_cons_of_mem m hm')) with ⟨b, hb⟩
    cases hd : m.director_name with
    | none => rw [hd] at hm; cases hm
    | some name =>
      obtain ⟨p, q⟩ := b
      refine ⟨?_, ?_⟩
      · exact (movieLink m ++ " - " ++ m.title ++ " - " ++ name ++ "\n" ++ p,
          "<p><a href=\x22" ++ movieLink m ++ "\x22>" ++ m.title ++ " - " ++ name
            ++ "</a></p>" ++ q)
      · unfold create_message_body
        rw [hd, hb]

lemma attachD_id (d : MovieDetails) (m : Movie) : (attachD d m).id = m.id := by
  unfold attachD
  cases d.imdb_id <;> rfl

lemma detailsOf_congr_id {dmap : List (Nat × MovieDetails)} {m m' : Movie}
    (h : m'.id = m.id) : detailsOf dmap m' = detailsOf dmap m := by
  unfold detailsOf
  rw [h]

/-- The fate of one new candidate through the enrichment loop, read off
a successful run: its details decide membership in the committed
archive (removeCond) and in the notification list (invalidCond); when it
is kept in the archive it is kept unchanged, and when it is notified it
is notified with the imdb id attached. -/
lemma candidate_fate {inp : RunInput} {tr : List Effect} {committed notified : List Movie}
    {config : Config} {archive crew : List Movie} {m : Movie} {d : MovieDetails}
    (hrun : run inp = (tr, .ok (committed, notified)))
    (hcfg : inp.config = .ok config)
    (harc : read_archive inp.archiveFile = .ok archive)
    (hcrew : fetchAllCredits inp.creditsResp config.directors = .ok crew)
    (hid : ∀ i x, inp.detailsResp i = .ok x → x.id = i)
    (hm : m ∈ valuesA (collectMovies (eligibleCredits crew)))
    (hnew : ¬(m.id ∈ archive.map Movie.id))
    (hd : inp.detailsResp m.id = .ok d) :
    (removeCond d → ∀ p ∈ committed, p.id ≠ m.id) ∧
    (¬removeCond d → m ∈ committed) ∧
    (invalidCond d → ∀ p ∈ notified, p.id ≠ m.id) ∧
    (¬invalidCond d → attachD d m ∈ notified) := by
  rcases run_ok_inv hrun with
    ⟨config', archive', crew', ds, new2, movies2, invalid, hcfg', harc', hcrew', hds, henr, hcom, hnot⟩
  rw [hcfg] at hcfg'
  cases hcfg'
  rw [harc] at harc'
  cases harc'
  rw [hcrew] at hcrew'
  cases hcrew'
  have hmnew : m ∈ newCandidates (archive.map Movie.id) (collectMovies (eligibleCredits crew)) :=
    mem_newCandidates.mpr ⟨hm, hnew⟩
  have hlook : lookupA (collectDetails ds) m.id = some d :=
    lookup_collectDetails hid hds hd ⟨m, hmnew, rfl⟩
  have hdOf : detailsOf (collectDetails ds) m = d := detailsOf_eq hlook
  obtain ⟨e1, e2, e3, e4, e5⟩ := enrichLoop_spec (collectDetails ds) _ _ _ _ _ _ henr
  have hsame : ∀ m' ∈ newCandidates (archive.map Movie.id) (collectMovies (eligibleCredits crew)),
      m'.id = m.id → detailsOf (collectDetails ds) m' = d := by
    intro m' hm' hid'
    rw [detailsOf_congr_id hid', hdOf]
  refine ⟨?_, ?_, ?_, ?_⟩
  · intro hc p hp hpid
    have hnone : lookupA movies2 m.id = none :=
      (e5 m.id).1 ⟨m, hmnew, rfl, hdOf ▸ hc⟩
    rw [hcom] at hp
    rcases mem_valuesA.mp hp with ⟨k, hk⟩
    have hwfM : wfA (collectMovies (eligibleCredits crew)) Movie.id := wfA_collectBy _ _
    have hkid : k = p.id := hwfM _ (e3 _ hk)
    have : (lookupA movies2 m.id).isSome :=
      (lookupA_isSome_iff movies2 m.id).mpr ⟨(k, p), hk, by rw [hkid, hpid]⟩
    rw [hnone] at this
    cases this
  · intro hc
    have hno : ¬∃ m' ∈ newCandidates (archive.map Movie.id)
        (collectMovies (eligibleCredits crew)), m'.id = m.id ∧
        removeCond (detailsOf (collectDetails ds) m') := by
      rintro ⟨m', hm', hid', hc'⟩
      rw [hsame m' hm' hid'] at hc'
      exact hc hc'
    have hself : lookupA (collectMovies (eligibleCredits crew)) m.id = some m :=
      selfA_collectBy Movie.id (eligibleCredits crew) m hm
    have : lookupA movies2 m.id = some m := by
      rw [(e5 m.id).2 hno, hself]
    rw [hcom]
    exact mem_valuesA.mpr ⟨m.id, lookupA_eq_some_mem this⟩
  · intro hc p hp hpid
    have hminv : m.id ∈ invalid :=
      (e4 m.id).mpr (Or.inr ⟨m, hmnew, rfl, hdOf ▸ hc⟩)
    rw [hnot] at hp
    rcases List.mem_filter.mp hp with ⟨-, hcond⟩
    rw [hpid] at hcond
    simp [hminv] at hcond
  · intro hc
    have hninv : ¬(m.id ∈ invalid) := by
      intro hmem
      rcases (e4 m.id).mp hmem with h1 | ⟨m', hm', hid', hc'⟩
      · cases h1
      · rw [hsame m' hm' hid'] at hc'
        exact hc hc'
    rw [hnot]
    refine List.mem_filter.mpr ⟨?_, ?_⟩
    · rw [e1]
      exact List.mem_map.mpr ⟨m, hmnew, by rw [hdOf]⟩
    · simp [attachD_id, hninv]

/-! ### Concrete scenario data used by the witnesses -/

/-- One credit: id 1, a directing credit with a release date. -/
def mvA : Movie :=
  { id := 1, title := "T", overview := "O", poster_path := none,
    release_date := "2024-01-01", job := some "Director", director_name := none,
    imdb_id := none }

/-- The same credit as Discovery stamps it. -/
def mvAStamped : Movie := { mvA with director_name := some "D" }

/-- The stamped credit with the imdb id the enrichment loop attaches. -/
def mvANotified : Movie := { mvAStamped with imdb_id := some "tt1" }

/-- A dry-run configuration with a single roster entry. -/
def cfgA : Config :=
  { archive_path := "a", dry_run := true, api_key := "k", to_addr := "t",
    from_addr := "f", subject := "s", username := "u", password := "p",
    smtp := "m", directors := [("7", "D")] }

/-- Credits responses: roster person 7 directed mvA. -/
def creditsA : String → Except Unit (List Movie) := fun i =>
  if i = "7" then .ok [mvA] else .ok []

/-- Details responses: imdb id present, runtime 90. -/
def detailsA : Nat → Except Unit MovieDetails := fun i =>
  .ok { id := i, imdb_id := some "tt1", runtime := some 90 }

/-- Details responses: imdb id present, runtime 30 (a short film). -/
def detailsB : Nat → Except Unit MovieDetails := fun i =>
  .ok { id := i, imdb_id := some "tt1", runtime := some 30 }

/-- Details responses: no imdb id. -/
def detailsD : Nat → Except Unit MovieDetails := fun i =>
  .ok { id := i, imdb_id := none, runtime := some 90 }

/-- Run input: empty prior archive, runtime-90 details. -/
def inpA : RunInput :=
  { config := .ok cfgA, archiveFile := ArchiveFile.content (some []),
    creditsResp := creditsA, detailsResp := detailsA,
    sendOk := true, writeOk := true }

/-- Run input: empty prior archive, runtime-30 details. -/
def inpB : RunInput :=
  { config := .ok cfgA, archiveFile := ArchiveFile.content (some []),
    creditsResp := creditsA, detailsResp := detailsB,
    sendOk := true, writeOk := true }

/-- Run input: empty prior archive, details without imdb id. -/
def inpD : RunInput :=
  { config := .ok cfgA, archiveFile := ArchiveFile.content (some []),
    creditsResp := creditsA, detailsResp := detailsD,
    sendOk := true, writeOk := true }

/-! ### Claim C2 -/

/-- C2: for a new candidate whose details carry an external identifier,
the runtime decides its fate: absent-or-zero runtime removes it from the
committed archive and from notification; a runtime strictly between 0
and 60 keeps it in the committed archive but out of the notification
list; a runtime of 60 or more makes it notification-valid (it appears in
the notification list, with the identifier attached). -/
theorem enrichment_runtime_policy
    (inp : RunInput) (tr : List Effect) (committed notified : List Movie)
    (config : Config) (archive crew : List Movie) (m : Movie) (d : MovieDetails)
    (hrun : run inp = (tr, .ok (committed, notified)))
    (hcfg : inp.config = .ok config)
    (harc : read_archive inp.archiveFile = .ok archive)
    (hcrew : fetchAllCredits inp.creditsResp config.directors = .ok crew)
    (hid : ∀ i x, inp.detailsResp i = .ok x → x.id = i)
    (hm : m ∈ valuesA (collectMovies (eligibleCredits crew)))
    (hnew : ¬(m.id ∈ archive.map Movie.id))
    (hd : inp.detailsResp m.id = .ok d)
    (x : String) (hx : d.imdb_id = some x) :
    ((d.runtime = none ∨ d.runtime = some 0) →
      (∀ p ∈ committed, p.id ≠ m.id) ∧ (∀ p ∈ notified, p.id ≠ m.id)) ∧
    (∀ r, d.runtime = some r → 0 < r → r < 60 →
      m ∈ committed ∧ (∀ p ∈ notified, p.id ≠ m.id)) ∧
    (∀ r, d.runtime = some r → 60 ≤ r →
      { m with imdb_id := some x } ∈ notified) := by
  obtain ⟨f1, f2, f3, f4⟩ := candidate_fate hrun hcfg harc hcrew hid hm hnew hd
  refine ⟨?_, ?_, ?_⟩
  · intro hr
    have hrt : detailsRuntime d = 0 := by
      unfold detailsRuntime
      rcases hr with h | h <;> rw [h] <;> rfl
    exact ⟨f1 (Or.inr hrt), f3 (Or.inr (by rw [hrt]; omega))⟩
  · intro r hr h0 h60
    have hrt : detailsRuntime d = r := by
      unfold detailsRuntime
      rw [hr]
      rfl
    refine ⟨f2 ?_, f3 ((invalidCond_some_iff hx).mpr (by rw [hrt]; exact h60))⟩
    rw [removeCond_some_iff hx, hrt]
    omega
  · intro r hr h60
    have hrt : detailsRuntime d = r := by
      unfold detailsRuntime
      rw [hr]
      rfl
    have hni : ¬invalidCond d := by
      rw [invalidCond_some_iff hx, hrt]
      omega
    have h4 := f4 hni
    have ha : attachD d m = { m with imdb_id := some x } := by
      unfold attachD
      rw [hx]
    rwa [ha] at h4

/-- Witness for C2: the runtime-30 scenario keeps the movie in the
committed archive and notifies nothing. -/
theorem enrichment_runtime_policy_witness :
    mvAStamped ∈ ([mvAStamped] : List Movie) ∧
      (∀ p ∈ ([] : List Movie), p.id ≠ mvAStamped.id) :=
  (enrichment_runtime_policy inpB
      [Effect.fetchCredits "7", Effect.fetchDetails 1, Effect.writeArchive [mvAStamped]]
      [mvAStamped] [] cfgA [] [mvAStamped] mvAStamped
      { id := 1, imdb_id := some "tt1", runtime := some 30 }
      rfl rfl rfl rfl
      (fun i x hx => by cases hx; rfl)
      (by decide) (by decide) rfl "tt1" rfl).2.1 30 rfl (by omega) (by omega)

/-! ### Claim C3 -/

/-- C3: a new candidate whose details lookup returns no external
identifier is excluded from the committed archive and from the
notification list, whatever its runtime. -/
theorem enrichment_missing_identifier_excludes
    (inp : RunInput) (tr : List Effect) (committed notified : List Movie)
    (config : Config) (archive crew : List Movie) (m : Movie) (d : MovieDetails)
    (hrun : run inp = (tr, .ok (committed, notified)))
    (hcfg : inp.config = .ok config)
    (harc : read_archive inp.archiveFile = .ok archive)
    (hcrew : fetchAllCredits inp.creditsResp config.directors = .ok crew)
    (hid : ∀ i x, inp.detailsResp i = .ok x → x.id = i)
    (hm : m ∈ valuesA (collectMovies (eligibleCredits crew)))
    (hnew : ¬(m.id ∈ archive.map Movie.id))
    (hd : inp.detailsResp m.id = .ok d)
    (hnone : d.imdb_id = none) :
    (∀ p ∈ committed, p.id ≠ m.id) ∧ (∀ p ∈ notified, p.id ≠ m.id) := by
  obtain ⟨f1, -, f3, -⟩ := candidate_fate hrun hcfg harc hcrew hid hm hnew hd
  exact ⟨f1 (Or.inl hnone), f3 (Or.inl hnone)⟩

/-- Witness for C3: the no-imdb scenario commits an empty archive and
notifies nothing. -/
theorem enrichment_missing_identifier_excludes_witness :
    (∀ p ∈ ([] : List Movie), p.id ≠ mvAStamped.id) ∧
      (∀ q ∈ ([] : List Movie), q.id ≠ mvAStamped.id) :=
  enrichment_missing_identifier_excludes inpD
    [Effect.fetchCredits "7", Effect.fetchDetails 1, Effect.writeArchive []]
    [] [] cfgA [] [mvAStamped] mvAStamped
    { id := 1, imdb_id := none, runtime := some 90 }
    rfl rfl rfl rfl
    (fun i x hx => by cases hx; rfl)
    (by decide) (by decide) rfl rfl

/-! ### Claim C1 (corrected) -/

/-- C1 counterexample: at this concrete input the single new candidate
passes every enrichment check (imdb id "tt1", runtime 90) and appears in
the notification list with the identifier attached, yet the committed
archive holds the movie with imdb_id still none: the claim that the
committed archive contains the Work WITH its external identifier
attached is false on the code (the identifier is attached only to the
new_movies copy, never to the full map that is written). -/
theorem archive_identifier_not_attached_cex :
    run inpA = ([Effect.fetchCredits "7", Effect.fetchDetails 1, Effect.printMovie 1,
        Effect.writeArchive [mvAStamped]],
      .ok ([mvAStamped], [mvANotified])) ∧
    detailsA 1 = .ok { id := 1, imdb_id := some "tt1", runtime := some 90 } ∧
    (∃ p ∈ [mvANotified], p.id = 1 ∧ p.imdb_id = some "tt1") ∧
    ¬(∃ p ∈ [mvAStamped], p.id = 1 ∧ p.imdb_id = some "tt1") := by
  refine ⟨rfl, rfl, ?_, ?_⟩
  · exact ⟨mvANotified, by decide, by decide, by decide⟩
  · rintro ⟨p, hp, h1, h2⟩
    have : p = mvAStamped := by simpa using hp
    rw [this] at h2
    cases h2

/-- C1 as amended: for every new candidate that passes all enrichment
checks, the committed archive contains that Work exactly as it left
Discovery (the external identifier is NOT attached to the archived
copy), and the Work appears in the notification list with its external
identifier attached. -/
theorem enrichment_valid_archived_and_notified
    (inp : RunInput) (tr : List Effect) (committed notified : List Movie)
    (config : Config) (archive crew : List Movie) (m : Movie) (d : MovieDetails)
    (hrun : run inp = (tr, .ok (committed, notified)))
    (hcfg : inp.config = .ok config)
    (harc : read_archive inp.archiveFile = .ok archive)
    (hcrew : fetchAllCredits inp.creditsResp config.directors = .ok crew)
    (hid : ∀ i x, inp.detailsResp i = .ok x → x.id = i)
    (hm : m ∈ valuesA (collectMovies (eligibleCredits crew)))
    (hnew : ¬(m.id ∈ archive.map Movie.id))
    (hd : inp.detailsResp m.id = .ok d)
    (x : String) (hx : d.imdb_id = some x)
    (r : Nat) (hr : d.runtime = some r) (h60 : 60 ≤ r) :
    m ∈ committed ∧ { m with imdb_id := some x } ∈ notified := by
  obtain ⟨-, f2, -, f4⟩ := candidate_fate hrun hcfg harc hcrew hid hm hnew hd
  have hrt : detailsRuntime d = r := by
    unfold detailsRuntime
    rw [hr]
    rfl
  refine ⟨f2 ?_, ?_⟩
  · rw [removeCond_some_iff hx, hrt]
    omega
  · have hni : ¬invalidCond d := by
      rw [invalidCond_some_iff hx, hrt]
      omega
    have h4 := f4 hni
    have ha : attachD d m = { m with imdb_id := some x } := by
      unfold attachD
      rw [hx]
    rwa [ha] at h4

/-- Witness for the amended C1 at the runtime-90 scenario. -/
theorem enrichment_valid_archived_and_notified_witness :
    mvAStamped ∈ ([mvAStamped] : List Movie) ∧
      { mvAStamped with imdb_id := some "tt1" } ∈ ([mvANotified] : List Movie) :=
  enrichment_valid_archived_and_notified inpA
    [Effect.fetchCredits "7", Effect.fetchDetails 1, Effect.printMovie 1,
      Effect.writeArchive [mvAStamped]]
    [mvAStamped] [mvANotified] cfgA [] [mvAStamped] mvAStamped
    { id := 1, imdb_id := some "tt1", runtime := some 90 }
    rfl rfl rfl rfl
    (fun i x hx => by cases hx; rfl)
    (by decide) (by decide) rfl "tt1" rfl 90 rfl (by omega)

/-! ### Claim C4 -/

/-- C4: a credit from the Discovery stream enters the candidate mapping
iff it is a directing credit with a non-empty release date: the mapping
has an entry under an id iff some credit of the stream carries that id
and passes both filters, and every value of the mapping is such a
credit; every credit failing either condition is excluded before
Reconciliation. -/
theorem discovery_eligibility_filter (crew : List Movie) :
    (∀ k, (lookupA (collectMovies (eligibleCredits crew)) k).isSome ↔
      ∃ m ∈ crew, m.id = k ∧ m.job = some "Director" ∧ m.release_date ≠ "") ∧
    (∀ v ∈ valuesA (collectMovies (eligibleCredits crew)),
      v ∈ crew ∧ v.job = some "Director" ∧ v.release_date ≠ "") := by
  constructor
  · intro k
    unfold collectMovies
    rw [lookupA_collectBy, List.find?_isSome]
    constructor
    · rintro ⟨x, hx, hpx⟩
      have hx' : x ∈ eligibleCredits crew := List.mem_reverse.mp hx
      rcases mem_eligibleCredits.mp hx' with ⟨h1, h2, h3⟩
      exact ⟨x, h1, by simpa using hpx, h2, h3⟩
    · rintro ⟨m, hm, hk, hj, hrel⟩
      exact ⟨m, List.mem_reverse.mpr (mem_eligibleCredits.mpr ⟨hm, hj, hrel⟩), by simp [hk]⟩
  · intro v hv
    unfold collectMovies at hv
    exact mem_eligibleCredits.mp (mem_collectBy_mem Movie.id (eligibleCredits crew) v hv)

/-- Witness for C4: in the concrete scenario the eligible credit's id is
present in the mapping, and the stamped credit is its value. -/
theorem discovery_eligibility_filter_witness :
    (lookupA (collectMovies (eligibleCredits [mvAStamped])) 1).isSome :=
  ((discovery_eligibility_filter [mvAStamped]).1 1).mpr
    ⟨mvAStamped, by decide, rfl, by decide, by decide⟩

/-! ### Claim C9 -/

lemma attachD_director_name (d : MovieDetails) (m : Movie) :
    (attachD d m).director_name = m.director_name := by
  unfold attachD
  cases d.imdb_id <;> rfl

lemma read_archive_error {af : ArchiveFile} {e : RunError}
    (h : read_archive af = .error e) : e = RunError.archiveParse := by
  cases af with
  | missing => cases h
  | ioError => cases h
  | content p =>
    cases p with
    | none => cases h; rfl
    | some ms => cases h

lemma enrichLoop_error {dmap : List (Nat × MovieDetails)} {nms : List Movie}
    {movies0 : List (Nat × Movie)} {inv0 : List Nat} {e : RunError}
    (h : enrichLoop dmap nms movies0 inv0 = .error e) : e = RunError.detailsLookup := by
  induction nms generalizing movies0 inv0 with
  | nil => unfold enrichLoop at h; cases h
  | cons movie rest ih =>
    unfold enrichLoop at h
    split at h
    · cases h; rfl
    next details hl =>
      split at h
      · split at h
        next e' hrec => cases h; exact ih hrec
        next => cases h
      next imdb himdb =>
        split at h
        next e' hrec => cases h; exact ih hrec
        next => cases h

lemma notifyCommit_no_missing {inp : RunInput} {config : Config} {tr : List Effect}
    {archOut new3 : List Movie}
    (h : ∀ m ∈ new3, m.director_name.isSome) :
    (notifyCommit inp config tr archOut new3).2 ≠ .error RunError.missingDirectorName := by
  unfold notifyCommit
  split
  · split
    · rcases renderDryRun_total h with ⟨es, hes⟩
      simp only [hes]
      unfold commitArchive
      split <;> simp
    · rcases create_message_body_total h with ⟨b, hb⟩
      simp only [hb]
      split
      · unfold commitArchive
        split <;> simp
      · simp
  · unfold commitArchive
    split <;> simp

/-- C9: every Work produced by Discovery carries a present director
display name (the stamp is applied to every fetched credit), and hence
no run can fail on the director-name extraction in the notification
stage (neither dry-run printing nor message rendering). -/
theorem director_stamp_total :
    (∀ (creditsResp : String → Except Unit (List Movie))
        (directors : List (String × String)) (crew : List Movie),
      fetchAllCredits creditsResp directors = .ok crew →
        ∀ m ∈ crew, m.director_name.isSome) ∧
    (∀ inp : RunInput, (run inp).2 ≠ .error RunError.missingDirectorName) := by
  refine ⟨fun resp dirs crew h => fetchAllCredits_stamped h, ?_⟩
  intro inp
  unfold run
  split
  · simp
  next config hcfg =>
    split
    next e harc =>
      simp only
      intro hcontra
      have := read_archive_error harc
      rw [this] at hcontra
      cases hcontra
    next archive harc =>
      simp only [runPipeline]
      split
      · simp
      next crew hcrew =>
        split
        · simp
        next ds hds =>
          split
          next e henr =>
            simp only
            intro hcontra
            have := enrichLoop_error henr
            rw [this] at hcontra
            cases hcontra
          next new2 movies2 invalid henr =>
            obtain ⟨e1, -, -, -, -⟩ := enrichLoop_spec _ _ _ _ _ _ _ henr
            apply notifyCommit_no_missing
            intro m hm
            rcases List.mem_filter.mp hm with ⟨hm2, -⟩
            rw [e1] at hm2
            rcases List.mem_map.mp hm2 with ⟨m0, hm0, rfl⟩
            rw [attachD_director_name]
            rcases mem_newCandidates.mp hm0 with ⟨hval, -⟩
            unfold collectMovies at hval
            have hmem : m0 ∈ eligibleCredits crew :=
              mem_collectBy_mem Movie.id (eligibleCredits crew) m0 hval
            exact fetchAllCredits_stamped hcrew m0 (mem_eligibleCredits.mp hmem).1

/-- Witness for C9: the stamped concrete credit has a director name, and
the concrete run does not fail on a missing director name. -/
theorem director_stamp_total_witness :
    mvAStamped.director_name.isSome ∧
      (run inpA).2 ≠ .error RunError.missingDirectorName :=
  ⟨director_stamp_total.1 creditsA [("7", "D")] [mvAStamped] rfl mvAStamped (by decide),
    director_stamp_total.2 inpA⟩

/-! ### Claim C6 -/

/-- The write discipline of one run outcome: at most one archive write
in the trace; a write, when present, is the trace's last effect; no
fatal outcome other than a failed write itself leaves a write in the
trace; a successful outcome wrote exactly its committed archive. -/
def traceSpec (out : List Effect × Except RunError (List Movie × List Movie)) : Prop :=
  out.1.countP isWriteEffect ≤ 1 ∧
  (∀ ms, Effect.writeArchive ms ∈ out.1 → out.1.getLast? = some (Effect.writeArchive ms)) ∧
  (∀ e, out.2 = .error e → e ≠ RunError.archiveWrite →
    ∀ ms, Effect.writeArchive ms ∉ out.1) ∧
  (∀ c n, out.2 = .ok (c, n) → Effect.writeArchive c ∈ out.1)

lemma not_write_of_countP_zero {tr : List Effect} (h : tr.countP isWriteEffect = 0)
    {ms : List Movie} (hm : Effect.writeArchive ms ∈ tr) : False := by
  rw [List.countP_eq_zero] at h
  have hcontra := h _ hm
  simp [isWriteEffect] at hcontra

lemma traceSpec_error (tr : List Effect) (e : RunError)
    (hwf : tr.countP isWriteEffect = 0) : traceSpec (tr, .error e) := by
  refine ⟨by rw [hwf]; omega, ?_, ?_, ?_⟩
  · intro ms hm
    exact absurd hm (fun hm => not_write_of_countP_zero hwf hm)
  · intro e' _ _ ms hm
    exact not_write_of_countP_zero hwf hm
  · intro c n h
    cases h

lemma traceSpec_commit (inp : RunInput) (tr : List Effect) (archOut new3 : List Movie)
    (hwf : tr.countP isWriteEffect = 0) : traceSpec (commitArchive inp tr archOut new3) := by
  unfold commitArchive
  refine ⟨?_, ?_, ?_, ?_⟩
  · simp only [List.countP_append, hwf]
    simp [List.countP_cons, isWriteEffect]
  · intro ms hm
    simp only
    rcases List.mem_append.mp hm with hm1 | hm1
    · exact absurd hm1 (fun hm1 => not_write_of_countP_zero hwf hm1)
    · have : Effect.writeArchive ms = Effect.writeArchive archOut := by simpa using hm1
      rw [this]
      exact List.getLast?_concat _
  · intro e he hne ms hm
    simp only at he
    split at he
    · cases he
    · cases he
      exact absurd rfl hne
  · intro c n h
    simp only at h
    split at h
    · cases h
      exact List.mem_append.mpr (Or.inr (List.mem_singleton.mpr rfl))
    · cases h

lemma countP_write_map_credits (l : List (String × String)) :
    (l.map (fun d => Effect.fetchCredits d.1)).countP isWriteEffect = 0 := by
  rw [List.countP_eq_zero]
  intro e he
  rcases List.mem_map.mp he with ⟨d, -, rfl⟩
  simp [isWriteEffect]

lemma countP_write_map_details (l : List Movie) :
    (l.map (fun m => Effect.fetchDetails m.id)).countP isWriteEffect = 0 := by
  rw [List.countP_eq_zero]
  intro e he
  rcases List.mem_map.mp he with ⟨m, -, rfl⟩
  simp [isWriteEffect]

lemma countP_write_prints {l : List Movie} {es : List Effect}
    (h : renderDryRun l = .ok es) : es.countP isWriteEffect = 0 := by
  rw [List.countP_eq_zero]
  intro e he
  rcases renderDryRun_effects h e he with ⟨i, rfl⟩
  simp [isWriteEffect]

lemma traceSpec_notifyCommit (inp : RunInput) (config : Config) (tr : List Effect)
    (archOut new3 : List Movie)
    (hwf : tr.countP isWriteEffect = 0) : traceSpec (notifyCommit inp config tr archOut new3) := by
  unfold notifyCommit
  split
  · split
    · split
      next e he => exact traceSpec_error tr e hwf
      next es hes =>
        exact traceSpec_commit inp _ archOut new3
          (by rw [List.countP_append, hwf, countP_write_prints hes])
    · split
      next e he => exact traceSpec_error tr e hwf
      next b hb =>
        split
        · exact traceSpec_commit inp _ archOut new3
            (by rw [List.countP_append, hwf]; simp [List.countP_cons, isWriteEffect])
        · exact traceSpec_error _ _
            (by rw [List.countP_append, hwf]; simp [List.countP_cons, isWriteEffect])
  · exact traceSpec_commit inp tr archOut new3 hwf

/-- C6: in every run the archive file is written at most once, a write
is always the final effect of the trace, every fatal outcome other than
a failed write itself leaves no write in the trace (so the prior archive
content stands), and a successful run wrote exactly its committed
archive once, after notification was handled. -/
theorem archive_write_once_at_end (inp : RunInput) :
    (run inp).1.countP isWriteEffect ≤ 1 ∧
    (∀ ms, Effect.writeArchive ms ∈ (run inp).1 →
      (run inp).1.getLast? = some (Effect.writeArchive ms)) ∧
    (∀ e, (run inp).2 = .error e → e ≠ RunError.archiveWrite →
      ∀ ms, Effect.writeArchive ms ∉ (run inp).1) ∧
    (∀ c n, (run inp).2 = .ok (c, n) → Effect.writeArchive c ∈ (run inp).1) := by
  have : traceSpec (run inp) := by
    unfold run
    split
    · exact traceSpec_error [] RunError.configError (by rw [List.countP_nil])
    next config hcfg =>
      split
      next e harc => exact traceSpec_error [] e (by rw [List.countP_nil])
      next archive harc =>
        simp only [runPipeline]
        split
        · exact traceSpec_error _ RunError.fetchCredits (countP_write_map_credits _)
        next crew hcrew =>
          have hwfE : ((config.directors.map (fun d => Effect.fetchCredits d.1)) ++
              (newCandidates (archive.map Movie.id)
                (collectMovies (eligibleCredits crew))).map
                  (fun m => Effect.fetchDetails m.id)).countP isWriteEffect = 0 := by
            rw [List.countP_append, countP_write_map_credits, countP_write_map_details]
          split
          · exact traceSpec_error _ RunError.fetchDetails hwfE
          next ds hds =>
            split
            next e henr => exact traceSpec_error _ e hwfE
            next new2 movies2 invalid henr =>
              exact traceSpec_notifyCommit inp config _ _ _ hwfE
  exact this

/-- Witness for C6: the concrete successful run put its committed
archive into the trace (exactly once, at the end). -/
theorem archive_write_once_at_end_witness :
    Effect.writeArchive [mvAStamped] ∈ (run inpA).1 :=
  (archive_write_once_at_end inpA).2.2.2 [mvAStamped] [mvANotified] rfl

/-! ### Claim C7 -/

/-- Run input whose archive file is present but unparseable. -/
def inpP : RunInput :=
  { config := .ok cfgA, archiveFile := ArchiveFile.content none,
    creditsResp := creditsA, detailsResp := detailsA,
    sendOk := true, writeOk := true }

/-- C7: a missing archive file loads as the empty work set, not as an
error; an archive file that is present but cannot be parsed aborts the
run before any pipeline stage executes (the effect trace is empty: no
fetch, print, send or write happened). -/
theorem archive_missing_empty_unparseable_aborts :
    read_archive ArchiveFile.missing = .ok [] ∧
    (∀ (inp : RunInput) (config : Config), inp.config = .ok config →
      inp.archiveFile = ArchiveFile.content none →
      run inp = ([], .error RunError.archiveParse)) := by
  refine ⟨rfl, ?_⟩
  intro inp config hcfg haf
  unfold run
  rw [hcfg, haf]
  rfl

/-- Witness for C7 at the concrete unparseable-archive input. -/
theorem archive_missing_empty_unparseable_aborts_witness :
    run inpP = ([], .error RunError.archiveParse) :=
  archive_missing_empty_unparseable_aborts.2 inpP cfgA rfl rfl

/-! ### Claim C10 -/

/-- Run input whose archive file read fails with an IO error (for
example a permission error). -/
def inpIO : RunInput :=
  { config := .ok cfgA, archiveFile := ArchiveFile.ioError,
    creditsResp := creditsA, detailsResp := detailsA,
    sendOk := true, writeOk := true }

lemma runPipeline_congr {inp inp' : RunInput} (config : Config) (archive : List Movie)
    (h1 : inp.creditsResp = inp'.creditsResp) (h2 : inp.detailsResp = inp'.detailsResp)
    (h3 : inp.sendOk = inp'.sendOk) (h4 : inp.writeOk = inp'.writeOk) :
    runPipeline inp config archive = runPipeline inp' config archive := by
  unfold runPipeline notifyCommit commitArchive
  simp only [h1, h2, h3, h4]

/-- C10: every failed read of the archive file - its absence or any
other IO error such as a permission error - is treated as an empty
archive rather than an error; such a run is indistinguishable from one
whose archive file parses to the empty list, and with an empty archive
snapshot every previously archived work is a new candidate again (the
reconciliation filter keeps every discovered work). -/
theorem archive_read_failure_empty :
    read_archive ArchiveFile.ioError = .ok [] ∧
    read_archive ArchiveFile.missing = .ok [] ∧
    (∀ inp : RunInput, inp.archiveFile = ArchiveFile.ioError →
      run inp = run { inp with archiveFile := ArchiveFile.content (some []) }) ∧
    (∀ movies : List (Nat × Movie),
      newCandidates (([] : List Movie).map Movie.id) movies = valuesA movies) := by
  refine ⟨rfl, rfl, ?_, ?_⟩
  · intro inp haf
    unfold run
    dsimp only
    rw [haf]
    cases hc : inp.config with
    | error e => rfl
    | ok config => exact runPipeline_congr config [] rfl rfl rfl rfl
  · intro movies
    simp [newCandidates]

/-- Witness for C10: the concrete IO-error run equals the empty-archive
run. -/
theorem archive_read_failure_empty_witness :
    run inpIO = run { inpIO with archiveFile := ArchiveFile.content (some []) } :=
  archive_read_failure_empty.2.2.1 inpIO rfl

/-! ### Claim C8 -/

lemma eligibleCredits_append (x y : List Movie) :
    eligibleCredits (x ++ y) = eligibleCredits x ++ eligibleCredits y := by
  unfold eligibleCredits
  rw [List.filter_append, List.filter_append]

lemma fetchAllCredits_members {creditsResp : String → Except Unit (List Movie)}
    {directors : List (String × String)} {crew : List Movie}
    (h : fetchAllCredits creditsResp directors = .ok crew) :
    ∀ m ∈ crew, ∃ d ∈ directors, ∃ cs c, creditsResp d.1 = .ok cs ∧ c ∈ cs ∧
      m = { c with director_name := some d.2 } := by
  induction directors generalizing crew with
  | nil =>
    unfold fetchAllCredits at h
    cases h
    intro m hm
    cases hm
  | cons d rest ih =>
    rcases fetchAllCredits_ok_cons h with ⟨cs, others, h1, h2, rfl⟩
    intro m hm
    rcases List.mem_append.mp hm with hm1 | hm1
    · rcases fetch_director_credits_ok h1 with ⟨cr, hcr, rfl⟩
      rcases List.mem_map.mp hm1 with ⟨c, hc, rfl⟩
      exact ⟨d, List.mem_cons_self d rest, cr, c, hcr, hc, rfl⟩
    · rcases ih h2 m hm1 with ⟨d', hd', cs', c', h3, h4, h5⟩
      exact ⟨d', List.mem_cons_of_mem d hd', cs', c', h3, h4, h5⟩

/-- C8: when the credit lists of two roster entries both contain an
eligible credit (a directing credit with a non-empty release date)
carrying the same work id, and no roster entry later in the merge order
contributes an eligible credit with that id, the merged Discovery
mapping holds exactly one entry for that id, and its value's
director-name stamp is the display name of the later-processed roster
entry. -/
theorem discovery_duplicate_last_stamp_wins
    (creditsResp : String → Except Unit (List Movie))
    (l1 l2 l3 : List (String × String)) (d1 d2 : String × String)
    (crew cs1 cs2 : List Movie) (k : Nat)
    (hcrew : fetchAllCredits creditsResp (l1 ++ (d1 :: (l2 ++ (d2 :: l3)))) = .ok crew)
    (h1 : creditsResp d1.1 = .ok cs1)
    (hc1 : ∃ c ∈ cs1, c.id = k ∧ c.job = some "Director" ∧ c.release_date ≠ "")
    (h2 : creditsResp d2.1 = .ok cs2)
    (hc2 : ∃ c ∈ cs2, c.id = k ∧ c.job = some "Director" ∧ c.release_date ≠ "")
    (h3 : ∀ d ∈ l3, ∀ cs, creditsResp d.1 = .ok cs →
      ∀ c ∈ cs, ¬(c.id = k ∧ c.job = some "Director" ∧ c.release_date ≠ "")) :
    (collectMovies (eligibleCredits crew)).countP (fun p => p.1 == k) = 1 ∧
    ∃ v, lookupA (collectMovies (eligibleCredits crew)) k = some v ∧
      v.director_name = some d2.2 := by
  rcases fetchAllCredits_ok_append hcrew with ⟨cA, cRest, hA, hRest, rfl⟩
  rcases fetchAllCredits_ok_cons hRest with ⟨s1, cRest2, hs1, hRest2, rfl⟩
  rcases fetchAllCredits_ok_append hRest2 with ⟨cB, cRest3, hB, hRest3, rfl⟩
  rcases fetchAllCredits_ok_cons hRest3 with ⟨s2, cC, hs2, hC, rfl⟩
  rcases fetch_director_credits_ok hs2 with ⟨cr2, hcr2, rfl⟩
  rw [hcr2] at h2
  cases h2
  have hlook : ∃ v, lookupA (collectMovies (eligibleCredits
      (cA ++ (s1 ++ (cB ++ (cs2.map (fun c => { c with director_name := some d2.2 }) ++ cC)))))) k
        = some v ∧ v.director_name = some d2.2 := by
    unfold collectMovies
    rw [lookupA_collectBy]
    rw [eligibleCredits_append, eligibleCredits_append, eligibleCredits_append,
      eligibleCredits_append]
    rw [List.reverse_append, List.reverse_append, List.reverse_append, List.reverse_append]
    rw [List.find?_append, List.find?_append, List.find?_append, List.find?_append]
    have hCnone : (eligibleCredits cC).reverse.find? (fun v => v.id == k) = none := by
      rw [List.find?_eq_none]
      intro x hx
      have hx2 : x ∈ eligibleCredits cC := List.mem_reverse.mp hx
      rcases mem_eligibleCredits.mp hx2 with ⟨hxC, hxj, hxr⟩
      rcases fetchAllCredits_members hC x hxC with ⟨d, hd, cs, c, hresp, hcmem, rfl⟩
      simp only [beq_iff_eq]
      intro hxk
      exact h3 d hd cs hresp c hcmem ⟨hxk, hxj, hxr⟩
    have hE2some : ∃ x, (eligibleCredits
        (cs2.map (fun c => { c with director_name := some d2.2 }))).reverse.find?
          (fun v => v.id == k) = some x ∧ x.director_name = some d2.2 := by
      rcases hc2 with ⟨c, hcmem, hck, hcj, hcr⟩
      have hmem : ({ c with director_name := some d2.2 } : Movie) ∈ eligibleCredits
          (cs2.map (fun c => { c with director_name := some d2.2 })) :=
        mem_eligibleCredits.mpr ⟨List.mem_map.mpr ⟨c, hcmem, rfl⟩, hcj, hcr⟩
      have hsome : ((eligibleCredits
          (cs2.map (fun c => { c with director_name := some d2.2 }))).reverse.find?
            (fun v => v.id == k)).isSome :=
        List.find?_isSome.mpr ⟨_, List.mem_reverse.mpr hmem, by simp [hck]⟩
      cases hf : (eligibleCredits
          (cs2.map (fun c => { c with director_name := some d2.2 }))).reverse.find?
            (fun v => v.id == k) with
      | none => rw [hf] at hsome; cases hsome
      | some x =>
        have hxmem := List.mem_of_find?_eq_some hf
        have hx2 : x ∈ eligibleCredits
            (cs2.map (fun c => { c with director_name := some d2.2 })) :=
          List.mem_reverse.mp hxmem
        rcases List.mem_map.mp (mem_eligibleCredits.mp hx2).1 with ⟨c', hc', rfl⟩
        exact ⟨_, rfl, rfl⟩
    rcases hE2some with ⟨x, hx, hxd⟩
    rw [hCnone, Option.none_or, hx]
    exact ⟨x, rfl, hxd⟩
  rcases hlook with ⟨v, hv, hvd⟩
  refine ⟨?_, v, hv, hvd⟩
  have hle : (collectMovies (eligibleCredits
      (cA ++ (s1 ++ (cB ++ (cs2.map (fun c => { c with director_name := some d2.2 }) ++ cC)))))).countP
        (fun p => p.1 == k) ≤ 1 := by
    unfold collectMovies
    exact ukA_collectBy Movie.id (eligibleCredits
      (cA ++ (s1 ++ (cB ++ (cs2.map (fun c => { c with director_name := some d2.2 }) ++ cC))))) k
  have hmem := lookupA_eq_some_mem hv
  have hpos : 0 < (collectMovies (eligibleCredits
      (cA ++ (s1 ++ (cB ++ (cs2.map (fun c => { c with director_name := some d2.2 }) ++ cC)))))).countP
        (fun p => p.1 == k) :=
    List.countP_pos_iff.mpr ⟨(k, v), hmem, by simp⟩
  omega

/-- A directing credit with id 5, listed by two roster people. -/
def mvC8 : Movie :=
  { id := 5, title := "W", overview := "", poster_path := none,
    release_date := "2025-01-01", job := some "Director", director_name := none,
    imdb_id := none }

/-- The credit stamped for the first roster entry. -/
def mvC8A : Movie := { mvC8 with director_name := some "A" }

/-- The credit stamped for the second roster entry. -/
def mvC8B : Movie := { mvC8 with director_name := some "B" }

/-- Credits responses: persons 1 and 2 both directed the id-5 work. -/
def creditsC8 : String → Except Unit (List Movie) := fun i =>
  if i = "1" then .ok [mvC8] else if i = "2" then .ok [mvC8] else .ok []

/-- Witness for C8: in the two-director scenario the merged mapping has
exactly one entry for id 5 and its stamp is the second display name. -/
theorem discovery_duplicate_last_stamp_wins_witness :
    (collectMovies (eligibleCredits [mvC8A, mvC8B])).countP (fun p => p.1 == 5) = 1 ∧
    ∃ v, lookupA (collectMovies (eligibleCredits [mvC8A, mvC8B])) 5 = some v ∧
      v.director_name = some "B" :=
  discovery_duplicate_last_stamp_wins creditsC8 [] [] [] ("1", "A") ("2", "B")
    [mvC8A, mvC8B] [mvC8] [mvC8] 5 rfl rfl
    ⟨mvC8, by decide, rfl, by decide, by decide⟩ rfl
    ⟨mvC8, by decide, rfl, by decide, by decide⟩
    (fun d hd => absurd hd (List.not_mem_nil d))

/-! ### Claim C5 -/

lemma invalidCond_of_removeCond {d : MovieDetails} (h : removeCond d) : invalidCond d := by
  rcases h with h | h
  · exact Or.inl h
  · exact Or.inr (by rw [h]; omega)

/-- C5: running the pipeline a second time with the same configuration
and the same metadata responses, the archive file carried over untouched
from a successful first run, notifies nothing: every candidate that is
new again on the second run was removed from the archive by the first
run's enrichment (no external identifier, or zero runtime) and is marked
invalid again. -/
theorem second_run_notifies_nothing
    (inp : RunInput) (tr1 tr2 : List Effect) (a1 n1 a2 n2 : List Movie)
    (hid : ∀ i x, inp.detailsResp i = .ok x → x.id = i)
    (h1 : run inp = (tr1, .ok (a1, n1)))
    (h2 : run { inp with archiveFile := ArchiveFile.content (some a1) } = (tr2, .ok (a2, n2))) :
    n2 = [] := by
  rcases run_ok_inv h1 with
    ⟨config, archive0, crew, ds1, n21, movies21, invalid1,
      hcfg, harc0, hcrew1, hds1, henr1, ha1, hn1⟩
  rcases run_ok_inv h2 with
    ⟨config2, archive2, crew2, ds2, n22, movies22, invalid2,
      hcfg2, harc2, hcrew2, hds2, henr2, ha2, hn2⟩
  dsimp only at hcfg2 harc2 hcrew2 hds2 henr2
  rw [hcfg] at hcfg2
  cases hcfg2
  rw [show read_archive (ArchiveFile.content (some a1)) = Except.ok a1 from rfl] at harc2
  cases harc2
  rw [hcrew1] at hcrew2
  cases hcrew2
  obtain ⟨e11, e12, e13, e14, e15⟩ := enrichLoop_spec _ _ _ _ _ _ _ henr1
  obtain ⟨e21, e22, e23, e24, e25⟩ := enrichLoop_spec _ _ _ _ _ _ _ henr2
  have hwfM : wfA (collectMovies (eligibleCredits crew)) Movie.id := by
    unfold collectMovies
    exact wfA_collectBy Movie.id _
  have hselfM : selfA (collectMovies (eligibleCredits crew)) Movie.id := by
    unfold collectMovies
    exact selfA_collectBy Movie.id _
  rw [hn2]
  rw [List.eq_nil_iff_forall_not_mem]
  intro x hx
  rcases List.mem_filter.mp hx with ⟨hx1, hx2⟩
  rw [e21] at hx1
  rcases List.mem_map.mp hx1 with ⟨m, hm2, rfl⟩
  rcases mem_newCandidates.mp hm2 with ⟨hmval, hmnotarch⟩
  -- the first run removed m.id from the full map
  have hlook1 : lookupA movies21 m.id = none := by
    cases hl : lookupA movies21 m.id with
    | none => rfl
    | some v =>
      exfalso
      have hkmem := lookupA_eq_some_mem hl
      have hkv : m.id = v.id := hwfM _ (e13 _ hkmem)
      apply hmnotarch
      rw [ha1]
      have : v ∈ valuesA movies21 := mem_valuesA.mpr ⟨m.id, hkmem⟩
      exact List.mem_map.mpr ⟨v, this, hkv.symm⟩
  have hremoved : ∃ m' ∈ newCandidates (archive0.map Movie.id)
      (collectMovies (eligibleCredits crew)), m'.id = m.id ∧
      removeCond (detailsOf (collectDetails ds1) m') := by
    by_contra hno
    have := (e15 m.id).2 hno
    rw [hlook1, hselfM m hmval] at this
    cases this
  rcases hremoved with ⟨m', hm', hmid', hrem'⟩
  -- the details the first run used for m'.id are the responses for m.id
  rcases fetchAllDetails_resp_ok hds1 m' hm' with ⟨d, hd⟩
  have hdOf1 : detailsOf (collectDetails ds1) m' = d :=
    detailsOf_eq (lookup_collectDetails hid hds1 hd ⟨m', hm', rfl⟩)
  rw [hdOf1] at hrem'
  rw [hmid'] at hd
  -- the second run looks the same details up for m
  have hdOf2 : detailsOf (collectDetails ds2) m = d :=
    detailsOf_eq (lookup_collectDetails hid hds2 hd ⟨m, hm2, rfl⟩)
  -- hence m is invalid again on the second run
  have hminv : m.id ∈ invalid2 :=
    (e24 m.id).mpr (Or.inr ⟨m, hm2, rfl, by rw [hdOf2]; exact invalidCond_of_removeCond hrem'⟩)
  rw [attachD_id] at hx2
  simp [hminv] at hx2

/-- Witness for C5: rerunning the concrete scenario on the archive the
first run committed notifies nothing. -/
theorem second_run_notifies_nothing_witness :
    run { inpA with archiveFile := ArchiveFile.content (some [mvAStamped]) } =
      ([Effect.fetchCredits "7", Effect.writeArchive [mvAStamped]],
        .ok ([mvAStamped], [])) ∧
    ([] : List Movie) = [] :=
  ⟨rfl, second_run_notifies_nothing inpA
    [Effect.fetchCredits "7", Effect.fetchDetails 1, Effect.printMovie 1,
      Effect.writeArchive [mvAStamped]]
    [Effect.fetchCredits "7", Effect.writeArchive [mvAStamped]]
    [mvAStamped] [mvANotified] [mvAStamped] []
    (fun i x hx => by cases hx; rfl) rfl rfl⟩
